import Mathlib

/-!
# Verification of the QR encoding core

A shallow embedding of the repository's sources:

* `src/src/types.ts` — `GaloisField`: GF(2^8) arithmetic via exp/log lookup
  tables built from the irreducible polynomial `0b100011101`.
* `src/src/BitBuffer.ts` — `BitBuffer`: a growable byte buffer with bit-level
  append, byte padding and pad-codeword fill.
* `src/unnamed/part_000` — the alphanumeric encoder (`encode`,
  `getCharacterCountIndicatorSize`, `encodeAlphanumeric`).

JavaScript peculiarities are modelled explicitly: `undefined` results of
out-of-range table reads become `Option`/dedicated constructors, falsy checks
(`!x`) treat the number `0` like `undefined`, out-of-bounds `Uint8Array`
writes are no-ops, and stored bytes are truncated modulo 256.

The repository's `constants.ts` is imported by the sources but is not part of
the source tree; its four constants are modelled from the spec (and the
repository's own tests), each marked `Modelled from the spec:` below.
-/

set_option maxRecDepth 100000

namespace QR

/-- Decidable equality for `Except` results, used to evaluate the model on
concrete inputs. -/
instance {ε α : Type} [DecidableEq ε] [DecidableEq α] : DecidableEq (Except ε α) :=
  fun x y =>
    match x, y with
    | .ok a, .ok b =>
      if h : a = b then isTrue (by rw [h])
      else isFalse (fun he => h (Except.ok.inj he))
    | .error a, .error b =>
      if h : a = b then isTrue (by rw [h])
      else isFalse (fun he => h (Except.error.inj he))
    | .ok _, .error _ => isFalse (fun he => Except.noConfusion he)
    | .error _, .ok _ => isFalse (fun he => Except.noConfusion he)

/-! ## GaloisField (src/src/types.ts) -/

/-- The irreducible polynomial x^8 + x^4 + x^3 + x + 1 used for GF(2^8). -/
def IRREDUCIBLE_POLYNOMIAL : Nat := 0b100011101

/-- One step of the table-building loop: `x = x << 1; if (x >= 256) x ^= P`. -/
def gfDouble (x : Nat) : Nat :=
  let y := 2 * x
  if 256 ≤ y then y ^^^ IRREDUCIBLE_POLYNOMIAL else y

/-- The static-initializer loop: starting from `x = 1`, record `x` and double,
`n` times.  `expListAux 255 1` is the list `exp[0..254]`. -/
def expListAux : Nat → Nat → List Nat
  | 0, _ => []
  | n + 1, x => x :: expListAux n (gfDouble x)

/-- `exp[0..254]` exactly as filled by the static initializer. -/
def expList : List Nat := expListAux 255 1

/-- Read `expTable[i]`.  The initializer sets `exp[255] = exp[0]`; indices
256..511 of the JS array are never written (holes), and larger indices are
out of range — both read as `undefined`, modelled as `none`. -/
def expVal (i : Nat) : Option Nat :=
  if i = 255 then expList.get? 0 else expList.get? i

/-- Read `logTable[x]`.  The loop sets `log[exp[i]] = i` for `i` in 0..254
(the recorded values are pairwise distinct, so first-write and last-write
semantics agree); afterwards `log[0]` is set to the `-Infinity` sentinel
("undefined"), and indices outside the filled range read as `undefined`.
Both non-numeric cases are modelled as `none`. -/
def logVal (x : Nat) : Option Nat :=
  if x = 0 then none else expList.findIdx? (· = x)

/-- Result of a `GaloisField` operation: a JS number, the JS value
`undefined` (produced by indexing a table with `NaN` or out of range), or
the thrown `Division by zero` error. -/
inductive GFResult where
  | val (n : Nat)
  | jsUndefined
  | divisionByZero
deriving DecidableEq, Repr

/-- `GaloisField.add`: bitwise XOR. -/
def add (a b : Nat) : Nat := a ^^^ b

/-- `GaloisField.subtract`: bitwise XOR. -/
def subtract (a b : Nat) : Nat := a ^^^ b

/-- `GaloisField.multiply`: 0 if either operand is 0, else
`exp[(log[a] + log[b]) % 255]`.  A non-numeric log (operand outside the
table) propagates as `NaN` index hence `undefined`. -/
def multiply (a b : Nat) : GFResult :=
  if a = 0 ∨ b = 0 then .val 0
  else
    match logVal a, logVal b with
    | some la, some lb =>
      match expVal ((la + lb) % 255) with
      | some v => .val v
      | none => .jsUndefined
    | _, _ => .jsUndefined

/-- `GaloisField.divide`: the source checks `a === 0` (returning 0) before
the `b === 0` division-by-zero check; otherwise
`exp[(log[a] - log[b] + 255) % 255]` (computed in `Int` since
`log[a] - log[b]` may be negative). -/
def divide (a b : Nat) : GFResult :=
  if a = 0 then .val 0
  else if b = 0 then .divisionByZero
  else
    match logVal a, logVal b with
    | some la, some lb =>
      match expVal ((((la : Int) - (lb : Int) + 255) % 255).toNat) with
      | some v => .val v
      | none => .jsUndefined
    | _, _ => .jsUndefined

/-- `GaloisField.power`: `exp[(log[x] * power) % 255]`, with no zero guard —
`log[0]` is the `-Infinity` sentinel, so the index is `NaN` and the result
is `undefined`. -/
def power (x n : Nat) : GFResult :=
  match logVal x with
  | some lx =>
    match expVal ((lx * n) % 255) with
    | some v => .val v
    | none => .jsUndefined
  | none => .jsUndefined

/-! ## BitBuffer (src/src/BitBuffer.ts) -/

/-- The `BitBuffer` state: the backing `Uint8Array` as a list of byte values,
and the two cursors. -/
structure BitBuffer where
  buffer : List Nat
  bytePointer : Nat
  bitPointer : Nat
deriving DecidableEq, Repr

/-- `new BitBuffer(initialSize = 1)`: a zero-filled buffer.  `none` models an
omitted argument (JS applies the default `1` exactly when the argument is
`undefined`). -/
def mkBitBuffer (initialSize : Option Nat) : BitBuffer :=
  { buffer := List.replicate (initialSize.getD 1) 0, bytePointer := 0, bitPointer := 0 }

/-- `ensureCapacity(bitsToAdd)`: grows the buffer to
`bytePointer + ceil(bitsToAdd / 8)` bytes when that exceeds the current
length, preserving existing bytes (the *bit* cursor is not consulted). -/
def ensureCapacity (b : BitBuffer) (bitsToAdd : Nat) : BitBuffer :=
  let requiredCapacity := b.bytePointer + (bitsToAdd + 7) / 8
  if b.buffer.length < requiredCapacity then
    { b with buffer := b.buffer ++ List.replicate (requiredCapacity - b.buffer.length) 0 }
  else b

/-- Number of binary digits of `v` (0 for `v = 0`), computed with explicit
fuel so that it reduces in the kernel; any `fuel ≥ v` gives the digit
count. -/
def bitLenAux : Nat → Nat → Nat
  | 0, _ => 0
  | fuel + 1, v => if v = 0 then 0 else bitLenAux fuel (v / 2) + 1

/-- `value.toString(2).length`, with `value === 0` giving `"0"` of length 1. -/
def realBitLength (v : Nat) : Nat := if v = 0 then 1 else bitLenAux v v

/-- `buffer[idx] |= v` on a `Uint8Array`: out-of-bounds writes are silently
dropped; in-bounds stores truncate to a byte. -/
def setByteOr (buf : List Nat) (idx v : Nat) : List Nat :=
  if idx < buf.length then buf.set idx ((buf.getD idx 0 ||| v) % 256) else buf

/-- The write loop of `appendBits`, for bit indices `i-1, …, 0` of `value`.
The bit cursor is an `Int` because the preceding padding step can drive it
negative when the explicit length is smaller than the value's bit-width; the
JS shift count `7 - bitPointer` is then ≥ 8 and is masked modulo 32 by the
`<<` operator (bits shifted past position 7 are lost by the byte store). -/
def appendLoop (value : Nat) : Nat → List Nat → Nat → Int → List Nat × Nat × Int
  | 0, buf, byteP, bitP => (buf, byteP, bitP)
  | i + 1, buf, byteP, bitP =>
    let bit := value / 2 ^ i % 2
    let shift := (7 - bitP).toNat % 32
    let buf' := setByteOr buf byteP (bit <<< shift)
    let bitP' := bitP + 1
    if bitP' = 8 then appendLoop value i buf' (byteP + 1) 0
    else appendLoop value i buf' byteP bitP'

/-- The cursor-normalisation step of `appendBits` after the padding bits
are skipped: `if (bitPointer >= 8) { bytePointer += floor(bitPointer / 8);
bitPointer %= 8; }`. -/
def appendBitsPadding (bp : Int) (byteP : Nat) : Nat × Int :=
  if 8 ≤ bp then (byteP + (bp / 8).toNat, bp % 8) else (byteP, bp)

/-- `appendBits(value, length?)`.  `!length` is true for both an omitted
argument and an explicit `0`, in which case the value's own bit-width is
used.  Padding bits are skipped by moving the bit cursor (normalised only
when it reaches 8 or more), then the value's bits are written MSB-first. -/
def appendBits (b : BitBuffer) (value : Nat) (length? : Option Nat) : BitBuffer :=
  let realLength := realBitLength value
  let len : Nat :=
    match length? with
    | none => realLength
    | some 0 => realLength
    | some l => l
  let b := ensureCapacity b len
  let padding : Int := (len : Int) - (realLength : Int)
  let pair := appendBitsPadding ((b.bitPointer : Int) + padding) b.bytePointer
  let out := appendLoop value realLength b.buffer pair.1 pair.2
  { buffer := out.1, bytePointer := out.2.1, bitPointer := out.2.2.toNat }

/-- `padByte()`: if the current byte is partially written, advance to the
next byte and reset the bit cursor. -/
def padByte (b : BitBuffer) : BitBuffer :=
  if 0 < b.bitPointer then
    { b with bitPointer := 0, bytePointer := b.bytePointer + 1 }
  else b

/-- Modelled from the spec: `constants.ts` is not in the source tree; the
spec fixes "the fixed two-byte pad pattern `{0xEC, 0x11}`". -/
def PAD_CODEWORDS : List Nat := [0xEC, 0x11]

/-- The `while` loop of `fill()`: `n` is the number of remaining bytes
(`buffer.length - bytePointer`); `i` alternates 0, 1 over `PAD_CODEWORDS`. -/
def fillLoop : Nat → List Nat → Nat → Nat → List Nat × Nat
  | 0, buf, byteP, _ => (buf, byteP)
  | n + 1, buf, byteP, i =>
    fillLoop n (buf.set byteP (PAD_CODEWORDS.getD i 0)) (byteP + 1) ((i + 1) % 2)

/-- `fill()`: `padByte()` first, then pad codewords into every remaining
byte up to the current capacity. -/
def fill (b : BitBuffer) : BitBuffer :=
  let b := padByte b
  let out := fillLoop (b.buffer.length - b.bytePointer) b.buffer b.bytePointer 0
  { b with buffer := out.1, bytePointer := out.2 }

/-- `toArray()`: the written prefix of the buffer. -/
def toArray (b : BitBuffer) : List Nat :=
  b.buffer.take (b.bytePointer + if 0 < b.bitPointer then 1 else 0)

/-- The bit of a byte list at absolute bit position `k` (most-significant
bit of each byte first); positions beyond the list read as `false`. -/
def listBit (buf : List Nat) (k : Nat) : Bool :=
  (buf.getD (k / 8) 0).testBit (7 - k % 8)

/-- The bit of the stored stream at absolute bit position `k`. -/
def streamBit (b : BitBuffer) (k : Nat) : Bool :=
  listBit b.buffer k

/-- Absolute bit position of the write cursor. -/
def cursorPos (b : BitBuffer) : Nat := 8 * b.bytePointer + b.bitPointer

/-- All stream bits at or after the cursor are still zero.  This holds for
every buffer reachable through the public operations: bits are only ever
written at the cursor, which then moves past them. -/
def ZerosFrom (b : BitBuffer) : Prop :=
  ∀ k, cursorPos b ≤ k → streamBit b k = false

/-! ## Alphanumeric encoder (src/unnamed/part_000) -/

/-- QR encoding modes. -/
inductive EncodingMode where
  | numeric
  | alphanumeric
  | byte
  | kanji
deriving DecidableEq, Repr

/-- Reed-Solomon error-correction levels. -/
inductive ECLevel where
  | L
  | M
  | Q
  | H
deriving DecidableEq, Repr

/-- A `QRCodeType` string `${Version}${ErrorCorrectionLevel}`. -/
structure QRCodeType where
  version : Nat
  level : ECLevel
deriving DecidableEq, Repr

/-- The errors thrown by the encoder. -/
inductive QRError where
  | unsupportedMode
  | unsupportedVersion
  | unsupportedECLevel
  | invalidCharacter (c : Char)
deriving DecidableEq, Repr

/-- `getCharacterCountIndicatorSize(version, encoding)`.  The version is an
`Int` so that out-of-range runtime arguments (where TypeScript's `Version`
type is bypassed) are expressible. -/
def getCharacterCountIndicatorSize (version : Int) (encoding : EncodingMode) :
    Except QRError Nat :=
  match encoding with
  | .alphanumeric =>
    if version ≤ 9 then .ok 9
    else if version ≤ 26 then .ok 11
    else if version ≤ 40 then .ok 13
    else .error .unsupportedVersion
  | _ => .error .unsupportedMode

/-- Modelled from the spec: `constants.ts` is not in the source tree; the
spec fixes the 45-symbol table — digits `0`–`9` map to 0–9, letters
`A`–`Z` to 10–35, then space and `$ % * + - . / :` to 36–44.  A JS object
lookup of any other character gives `undefined` (`none`). -/
def ALPHANUMERIC_ENCODING_TABLE (c : Char) : Option Nat :=
  if 48 ≤ c.toNat ∧ c.toNat ≤ 57 then some (c.toNat - 48)
  else if 65 ≤ c.toNat ∧ c.toNat ≤ 90 then some (c.toNat - 65 + 10)
  else if c = ' ' then some 36
  else if c = '$' then some 37
  else if c = '%' then some 38
  else if c = '*' then some 39
  else if c = '+' then some 40
  else if c = '-' then some 41
  else if c = '.' then some 42
  else if c = '/' then some 43
  else if c = ':' then some 44
  else none

/-- Modelled from the spec: `constants.ts` is not in the source tree; the
4-bit alphanumeric mode indicator is `0010`. -/
def MODE_INDICATOR_ALPHANUMERIC : Nat := 0b0010

/-- Modelled from the spec: `constants.ts` is not in the source tree; the
data-codeword capacity for version 1 / level M is 16 bytes (the spec's
"version-1-level-M codeword capacity"; the repository's own encoding test
builds its expected value in a `BitBuffer(16)`).  Other keys are not
exercised by the sources (the encoder rejects them first) and read as
`undefined`. -/
def DATA_CODEWORDS_BY_TYPE (version : Int) (level : ECLevel) : Option Nat :=
  if version = 1 ∧ level = ECLevel.M then some 16 else none

/-- JS falsiness of a looked-up table value: `undefined` and the number `0`
are both falsy — this is why the source's `!currValue` check also fires on
the character `'0'`, whose table value is `0`. -/
def jsFalsy (v : Option Nat) : Bool :=
  match v with
  | none => true
  | some 0 => true
  | some _ => false

/-- The character-pair loop of `encodeAlphanumeric` (`i += 2`): for a full
pair append `value1 * 45 + value2` in 11 bits, for a trailing single
character its value in 6 bits; a falsy looked-up value throws
`Non-alphanumeric character`. -/
def encodePairs (b : BitBuffer) : List Char → Except QRError BitBuffer
  | [] => .ok b
  | [c] =>
    let currValue := ALPHANUMERIC_ENCODING_TABLE c
    if jsFalsy currValue then .error (.invalidCharacter c)
    else .ok (appendBits b (currValue.getD 0) (some 6))
  | c1 :: c2 :: rest =>
    let currValue := ALPHANUMERIC_ENCODING_TABLE c1
    let nextValue := ALPHANUMERIC_ENCODING_TABLE c2
    if jsFalsy currValue then .error (.invalidCharacter c1)
    else if jsFalsy nextValue then .error (.invalidCharacter c2)
    else encodePairs (appendBits b (currValue.getD 0 * 45 + nextValue.getD 0) (some 11)) rest

/-- `encodeAlphanumeric(data, version, errorCorrectionLevel)`: version-1 /
level-M guards, a buffer of the type's codeword capacity, the 4-bit mode
indicator, the character count, the packed pairs, the 4-bit terminator and a
final `padByte()` — note: no `fill()` here. -/
def encodeAlphanumeric (data : List Char) (version : Int)
    (errorCorrectionLevel : ECLevel) : Except QRError BitBuffer :=
  if version ≠ 1 then .error .unsupportedVersion
  else if errorCorrectionLevel ≠ ECLevel.M then .error .unsupportedECLevel
  else
    let size := DATA_CODEWORDS_BY_TYPE version errorCorrectionLevel
    let b := mkBitBuffer size
    let b := appendBits b MODE_INDICATOR_ALPHANUMERIC (some 4)
    match getCharacterCountIndicatorSize version .alphanumeric with
    | .error e => .error e
    | .ok cci =>
      let b := appendBits b data.length (some cci)
      match encodePairs b data with
      | .error e => .error e
      | .ok b => .ok (padByte (appendBits b 0 (some 4)))

/-- Top-level `encode(data, mode, qrType)`: only alphanumeric is
implemented, hard-wired to `encodeAlphanumeric(data, 1, 'M')` followed by
`fill()`; the `qrType` argument is never read. -/
def encode (data : List Char) (mode : EncodingMode) (qrType : QRCodeType) :
    Except QRError BitBuffer :=
  match mode with
  | .alphanumeric =>
    match encodeAlphanumeric data 1 ECLevel.M with
    | .error e => .error e
    | .ok b => .ok (fill b)
  | _ => .error .unsupportedMode

/-- Bundled inverse check for one non-zero field element: `divide(1,a)`
succeeds with a value `inv` and `multiply(a, inv) == 1`. -/
def invCheck (a : Nat) : Bool :=
  match divide 1 a with
  | .val inv => multiply a inv == GFResult.val 1
  | _ => false

/-! ## Facts about the exp/log tables -/

theorem expList_length : expList.length = 255 := by rfl

theorem expList_mem_bounds : ∀ v ∈ expList, 0 < v ∧ v < 256 := by decide

theorem expList_complete : ∀ x : Fin 256, x.val = 0 ∨ x.val ∈ expList := by decide

theorem mem_expList_of (x : Nat) (h0 : 0 < x) (h1 : x < 256) : x ∈ expList := by
  rcases expList_complete ⟨x, h1⟩ with h | h
  · exact absurd h (Nat.pos_iff_ne_zero.mp h0)
  · exact h

theorem logVal_exists (x : Nat) (h0 : 0 < x) (h1 : x < 256) :
    ∃ i, logVal x = some i ∧ i < 255 := by
  have hm : x ∈ expList := mem_expList_of x h0 h1
  have hex : ∃ y, y ∈ expList ∧ (decide (y = x)) = true := ⟨x, hm, by simp⟩
  have h := List.findIdx?_eq_some_of_exists hex
  refine ⟨expList.findIdx (fun y => decide (y = x)), ?_, ?_⟩
  · simpa [logVal, if_neg (by omega : ¬ x = 0)] using h
  · have hb := (List.findIdx?_eq_some_iff_findIdx_eq.mp h).1
    rw [expList_length] at hb
    exact hb

theorem expVal_some (i : Nat) (h : i < 255) :
    ∃ v, expVal i = some v ∧ 0 < v ∧ v < 256 := by
  have hi : i < expList.length := by rw [expList_length]; exact h
  refine ⟨expList.get ⟨i, hi⟩, ?_, ?_⟩
  · simp [expVal, if_neg (by omega : ¬ i = 255), List.get?_eq_getElem?,
      List.getElem?_eq_getElem hi]
  · exact expList_mem_bounds _ (List.get_mem expList i hi)

theorem multiply_val (a b : Nat) (ha : a ≤ 255) (hb : b ≤ 255) :
    ∃ v, multiply a b = GFResult.val v ∧ v ≤ 255 := by
  unfold multiply
  by_cases hz : a = 0 ∨ b = 0
  · rw [if_pos hz]
    exact ⟨0, rfl, by omega⟩
  · rw [if_neg hz]
    push_neg at hz
    obtain ⟨la, hla, hla'⟩ := logVal_exists a (by omega) (by omega)
    obtain ⟨lb, hlb, hlb'⟩ := logVal_exists b (by omega) (by omega)
    rw [hla, hlb]
    obtain ⟨v, hv, hv0, hv'⟩ := expVal_some ((la + lb) % 255) (Nat.mod_lt _ (by norm_num))
    show ∃ w, (match expVal ((la + lb) % 255) with
      | some v => GFResult.val v
      | none => GFResult.jsUndefined) = GFResult.val w ∧ w ≤ 255
    rw [hv]
    exact ⟨v, rfl, by omega⟩

theorem divide_val (a b : Nat) (ha : a ≤ 255) (hb : b ≤ 255) (hb0 : b ≠ 0) :
    ∃ v, divide a b = GFResult.val v ∧ v ≤ 255 := by
  unfold divide
  by_cases haz : a = 0
  · rw [if_pos haz]
    exact ⟨0, rfl, by omega⟩
  · rw [if_neg haz, if_neg hb0]
    obtain ⟨la, hla, hla'⟩ := logVal_exists a (by omega) (by omega)
    obtain ⟨lb, hlb, hlb'⟩ := logVal_exists b (by omega) (by omega)
    rw [hla, hlb]
    have h0 : 0 ≤ ((la : Int) - (lb : Int) + 255) % 255 :=
      Int.emod_nonneg _ (by norm_num)
    have h1 : ((la : Int) - (lb : Int) + 255) % 255 < 255 :=
      Int.emod_lt_of_pos _ (by norm_num)
    obtain ⟨v, hv, hv0, hv'⟩ :=
      expVal_some ((((la : Int) - (lb : Int) + 255) % 255).toNat) (by omega)
    show ∃ w, (match expVal ((((la : Int) - (lb : Int) + 255) % 255).toNat) with
      | some v => GFResult.val v
      | none => GFResult.jsUndefined) = GFResult.val w ∧ w ≤ 255
    rw [hv]
    exact ⟨v, rfl, by omega⟩

theorem power_val (x : Nat) (hx0 : 1 ≤ x) (hx : x ≤ 255) (n : Nat) :
    ∃ v, power x n = GFResult.val v ∧ v ≤ 255 := by
  unfold power
  obtain ⟨lx, hlx, hlx'⟩ := logVal_exists x (by omega) (by omega)
  rw [hlx]
  obtain ⟨v, hv, hv0, hv'⟩ := expVal_some ((lx * n) % 255) (Nat.mod_lt _ (by norm_num))
  show ∃ w, (match expVal ((lx * n) % 255) with
    | some v => GFResult.val v
    | none => GFResult.jsUndefined) = GFResult.val w ∧ w ≤ 255
  rw [hv]
  exact ⟨v, rfl, by omega⟩

/-! ## Claim C4 — field closure -/

/-- C4 (counterexample): `power(0, 1)` does not return a field element at
all — `log[0]` is the `-Infinity` sentinel, the table index is `NaN`, and
the result is the JS value `undefined`, not an integer in `[0,255]`.  The
claim asserts a numeric result for every base in `[0,255]` including 0. -/
theorem C4_counterexample : power 0 1 = GFResult.jsUndefined := by decide

/-- C4 (amended): results of `add`, `subtract`, `multiply` on byte
operands, of `divide` with non-zero divisor, and of `power` with *non-zero*
base lie in `[0,255]`.  (The original claim also admitted base 0 for
`power`, refuted by `C4_counterexample`.) -/
theorem C4_field_closure (a b : Nat) (ha : a ≤ 255) (hb : b ≤ 255) :
    add a b ≤ 255 ∧ subtract a b ≤ 255 ∧
    (∃ v, multiply a b = GFResult.val v ∧ v ≤ 255) ∧
    (b ≠ 0 → ∃ v, divide a b = GFResult.val v ∧ v ≤ 255) ∧
    (1 ≤ a → ∀ n : Nat, ∃ v, power a n = GFResult.val v ∧ v ≤ 255) := by
  have hxor : a ^^^ b < 256 :=
    Nat.xor_lt_two_pow (n := 8) (by omega) (by omega)
  refine ⟨?_, ?_, multiply_val a b ha hb, fun h => divide_val a b ha hb h,
    fun h n => power_val a h ha n⟩
  · unfold add; omega
  · unfold subtract; omega

/-- C4 (witness). -/
theorem C4_witness :
    add 3 7 ≤ 255 ∧ subtract 3 7 ≤ 255 ∧
    (∃ v, multiply 3 7 = GFResult.val v ∧ v ≤ 255) ∧
    (7 ≠ 0 → ∃ v, divide 3 7 = GFResult.val v ∧ v ≤ 255) ∧
    (1 ≤ 3 → ∀ n : Nat, ∃ v, power 3 n = GFResult.val v ∧ v ≤ 255) :=
  C4_field_closure 3 7 (by decide) (by decide)

/-! ## Claim C6 — division error handling -/

/-- C6 (counterexample): `divide(0, 0)` returns the field element 0 and
does *not* raise `DivisionByZero`, because the source checks `a === 0`
before `b === 0`; the claim requires failure for every numerator,
including `a == 0`. -/
theorem C6_counterexample : divide 0 0 = GFResult.val 0 := by decide

/-- C6 (amended): `divide(a, b)` raises `DivisionByZero` when `b == 0`
*and* `a != 0`; it returns 0 whenever `a == 0` (even for `b == 0`, since
the `a === 0` check comes first); otherwise it returns
`exp[(log[a] - log[b] + 255) mod 255]`. -/
theorem C6_divide_spec (a b : Nat) (ha : a ≤ 255) (hb : b ≤ 255) :
    (a = 0 → divide a b = GFResult.val 0) ∧
    (a ≠ 0 → b = 0 → divide a b = GFResult.divisionByZero) ∧
    (a ≠ 0 → b ≠ 0 → ∃ la lb v, logVal a = some la ∧ logVal b = some lb ∧
      expVal ((((la : Int) - (lb : Int) + 255) % 255).toNat) = some v ∧
      divide a b = GFResult.val v) := by
  refine ⟨?_, ?_, ?_⟩
  · intro h; unfold divide; rw [if_pos h]
  · intro ha0 hb0; unfold divide; rw [if_neg ha0, if_pos hb0]
  · intro ha0 hb0
    obtain ⟨la, hla, hla'⟩ := logVal_exists a (by omega) (by omega)
    obtain ⟨lb, hlb, hlb'⟩ := logVal_exists b (by omega) (by omega)
    have h0 : 0 ≤ ((la : Int) - (lb : Int) + 255) % 255 :=
      Int.emod_nonneg _ (by norm_num)
    have h1 : ((la : Int) - (lb : Int) + 255) % 255 < 255 :=
      Int.emod_lt_of_pos _ (by norm_num)
    obtain ⟨v, hv, hv0, hv'⟩ :=
      expVal_some ((((la : Int) - (lb : Int) + 255) % 255).toNat) (by omega)
    refine ⟨la, lb, v, hla, hlb, hv, ?_⟩
    unfold divide
    rw [if_neg ha0, if_neg hb0, hla, hlb]
    show (match expVal ((((la : Int) - (lb : Int) + 255) % 255).toNat) with
      | some v => GFResult.val v
      | none => GFResult.jsUndefined) = GFResult.val v
    rw [hv]

/-- C6 (witness). -/
theorem C6_witness :
    ((5 : Nat) = 0 → divide 5 0 = GFResult.val 0) ∧
    ((5 : Nat) ≠ 0 → (0 : Nat) = 0 → divide 5 0 = GFResult.divisionByZero) ∧
    ((5 : Nat) ≠ 0 → (0 : Nat) ≠ 0 → ∃ la lb v, logVal 5 = some la ∧ logVal 0 = some lb ∧
      expVal ((((la : Int) - (lb : Int) + 255) % 255).toNat) = some v ∧
      divide 5 0 = GFResult.val v) :=
  C6_divide_spec 5 0 (by decide) (by decide)

/-! ## Claim C9 — multiplicative inverses -/

theorem invCheck_all : ∀ a : Fin 256, 1 ≤ a.val → invCheck a.val = true := by decide

/-- C9: for every non-zero field element `a`, `divide(1, a)` yields a value
`inv` with `multiply(a, inv) == 1`, over the tables built from the
irreducible polynomial `0b100011101`. -/
theorem C9_inverse (a : Nat) (h1 : 1 ≤ a) (h2 : a ≤ 255) :
    ∃ inv, divide 1 a = GFResult.val inv ∧ multiply a inv = GFResult.val 1 := by
  have h := invCheck_all ⟨a, by omega⟩ h1
  unfold invCheck at h
  rcases hd : divide 1 a with inv | _ | _ <;> rw [hd] at h
  · exact ⟨inv, rfl, by exact of_decide_eq_true h⟩
  · exact absurd h (by simp)
  · exact absurd h (by simp)

/-- C9 (witness). -/
theorem C9_witness :
    ∃ inv, divide 1 2 = GFResult.val inv ∧ multiply 2 inv = GFResult.val 1 :=
  C9_inverse 2 (by decide) (by decide)

/-! ## Claim C7 — character-count-indicator width -/

/-- C7 (counterexample): versions below 1 do not fail — the source's first
branch `version <= 9` already catches them, so version 0 and negative
versions return 9 instead of raising Unsupported. -/
theorem C7_counterexample :
    getCharacterCountIndicatorSize 0 EncodingMode.alphanumeric = Except.ok 9 ∧
    getCharacterCountIndicatorSize (-3) EncodingMode.alphanumeric = Except.ok 9 := by
  exact ⟨rfl, rfl⟩

/-- C7 (amended): for alphanumeric mode every version `≤ 9` (including 0
and negative versions) yields 9 bits, 10–26 yield 11, 27–40 yield 13, and
only versions `> 40` fail with Unsupported; every other mode fails with
Unsupported regardless of version. -/
theorem C7_cci_width (v : Int) (m : EncodingMode) :
    (v ≤ 9 → getCharacterCountIndicatorSize v EncodingMode.alphanumeric = Except.ok 9) ∧
    (10 ≤ v → v ≤ 26 → getCharacterCountIndicatorSize v EncodingMode.alphanumeric = Except.ok 11) ∧
    (27 ≤ v → v ≤ 40 → getCharacterCountIndicatorSize v EncodingMode.alphanumeric = Except.ok 13) ∧
    (41 ≤ v → getCharacterCountIndicatorSize v EncodingMode.alphanumeric =
      Except.error QRError.unsupportedVersion) ∧
    (m ≠ EncodingMode.alphanumeric →
      getCharacterCountIndicatorSize v m = Except.error QRError.unsupportedMode) := by
  refine ⟨?_, ?_, ?_, ?_, ?_⟩
  · intro h
    unfold getCharacterCountIndicatorSize
    rw [if_pos h]
  · intro h1 h2
    unfold getCharacterCountIndicatorSize
    rw [if_neg (by omega), if_pos h2]
  · intro h1 h2
    unfold getCharacterCountIndicatorSize
    rw [if_neg (by omega), if_neg (by omega), if_pos h2]
  · intro h
    unfold getCharacterCountIndicatorSize
    rw [if_neg (by omega), if_neg (by omega), if_neg (by omega)]
  · intro hm
    cases m
    · rfl
    · exact absurd rfl hm
    · rfl
    · rfl

/-- C7 (witness). -/
theorem C7_witness :
    ((5 : Int) ≤ 9 → getCharacterCountIndicatorSize 5 EncodingMode.alphanumeric = Except.ok 9) ∧
    ((10 : Int) ≤ 5 → (5 : Int) ≤ 26 → getCharacterCountIndicatorSize 5 EncodingMode.alphanumeric = Except.ok 11) ∧
    ((27 : Int) ≤ 5 → (5 : Int) ≤ 40 → getCharacterCountIndicatorSize 5 EncodingMode.alphanumeric = Except.ok 13) ∧
    ((41 : Int) ≤ 5 → getCharacterCountIndicatorSize 5 EncodingMode.alphanumeric =
      Except.error QRError.unsupportedVersion) ∧
    (EncodingMode.numeric ≠ EncodingMode.alphanumeric →
      getCharacterCountIndicatorSize 5 EncodingMode.numeric = Except.error QRError.unsupportedMode) :=
  C7_cci_width 5 EncodingMode.numeric

/-! ## Claim C10 — top-level encode -/

/-- C10: `encode` never reads its `qrType` argument, always delegates to
`encodeAlphanumeric(data, 1, 'M')` followed by `fill()`, and fails with
`UnsupportedMode` for every other mode regardless of the input. -/
theorem C10_encode (data : List Char) (t1 t2 : QRCodeType) (m : EncodingMode) :
    encode data EncodingMode.alphanumeric t1 = encode data EncodingMode.alphanumeric t2 ∧
    encode data EncodingMode.alphanumeric t1 =
      Except.map fill (encodeAlphanumeric data 1 ECLevel.M) ∧
    (m ≠ EncodingMode.alphanumeric →
      encode data m t1 = Except.error QRError.unsupportedMode) := by
  refine ⟨rfl, ?_, ?_⟩
  · cases h : encodeAlphanumeric data 1 ECLevel.M
    · simp [encode, h, Except.map]
    · simp [encode, h, Except.map]
  · intro hm
    cases m
    · rfl
    · exact absurd rfl hm
    · rfl
    · rfl

/-- C10 (witness). -/
theorem C10_witness :
    encode ['A'] EncodingMode.alphanumeric ⟨1, ECLevel.M⟩ =
      encode ['A'] EncodingMode.alphanumeric ⟨7, ECLevel.H⟩ ∧
    encode ['A'] EncodingMode.alphanumeric ⟨1, ECLevel.M⟩ =
      Except.map fill (encodeAlphanumeric ['A'] 1 ECLevel.M) ∧
    (EncodingMode.kanji ≠ EncodingMode.alphanumeric →
      encode ['A'] EncodingMode.kanji ⟨1, ECLevel.M⟩ = Except.error QRError.unsupportedMode) :=
  C10_encode ['A'] ⟨1, ECLevel.M⟩ ⟨7, ECLevel.H⟩ EncodingMode.kanji

/-! ## List access helper lemmas -/

theorem getD_set_self (l : List Nat) (i a : Nat) (h : i < l.length) :
    (l.set i a).getD i 0 = a := by
  simp [List.getD_eq_getElem?_getD, List.getElem?_set_self h]

theorem getD_set_ne (l : List Nat) {i j : Nat} (a : Nat) (h : i ≠ j) :
    (l.set i a).getD j 0 = l.getD j 0 := by
  simp [List.getD_eq_getElem?_getD, List.getElem?_set_ne h]

/-! ## Claim C8 — fill -/

/-- `fill` unfolded into `padByte` and `fillLoop`. -/
theorem fill_eq (b : BitBuffer) :
    fill b = { padByte b with
      buffer := (fillLoop ((padByte b).buffer.length - (padByte b).bytePointer)
        (padByte b).buffer (padByte b).bytePointer 0).1,
      bytePointer := (fillLoop ((padByte b).buffer.length - (padByte b).bytePointer)
        (padByte b).buffer (padByte b).bytePointer 0).2 } := rfl

theorem padByte_buffer (b : BitBuffer) : (padByte b).buffer = b.buffer := by
  unfold padByte; split <;> rfl

theorem padByte_bitPointer (b : BitBuffer) : (padByte b).bitPointer = 0 := by
  unfold padByte
  split
  · rfl
  · omega

theorem fillLoop_spec (n : Nat) : ∀ (buf : List Nat) (byteP i : Nat), i < 2 →
    byteP + n ≤ buf.length →
    (fillLoop n buf byteP i).1.length = buf.length ∧
    (fillLoop n buf byteP i).2 = byteP + n ∧
    (∀ j, j < byteP → (fillLoop n buf byteP i).1.getD j 0 = buf.getD j 0) ∧
    (∀ j, byteP + n ≤ j → (fillLoop n buf byteP i).1.getD j 0 = buf.getD j 0) ∧
    (∀ j, j < n →
      (fillLoop n buf byteP i).1.getD (byteP + j) 0 = PAD_CODEWORDS.getD ((i + j) % 2) 0) := by
  induction n with
  | zero =>
    intro buf byteP i _ _
    refine ⟨rfl, rfl, fun j _ => rfl, fun j _ => rfl, fun j hj => absurd hj (by omega)⟩
  | succ n ih =>
    intro buf byteP i hi hle
    have hlt : byteP < buf.length := by omega
    have hstep : fillLoop (n + 1) buf byteP i =
        fillLoop n (buf.set byteP (PAD_CODEWORDS.getD i 0)) (byteP + 1) ((i + 1) % 2) := rfl
    have hlen : (buf.set byteP (PAD_CODEWORDS.getD i 0)).length = buf.length := by simp
    obtain ⟨h1, h2, h3, h4, h5⟩ := ih (buf.set byteP (PAD_CODEWORDS.getD i 0)) (byteP + 1)
      ((i + 1) % 2) (by omega) (by omega)
    rw [hstep]
    refine ⟨by rw [h1, hlen], by omega, ?_, ?_, ?_⟩
    · intro j hj
      rw [h3 j (by omega), getD_set_ne _ _ (by omega)]
    · intro j hj
      rw [h4 j (by omega), getD_set_ne _ _ (by omega)]
    · intro j hj
      match j with
      | 0 =>
        rw [show byteP + 0 = byteP from rfl, h3 byteP (by omega),
          getD_set_self _ _ _ hlt]
        have : (i + 0) % 2 = i := by omega
        rw [this]
      | j' + 1 =>
        have hidx : byteP + (j' + 1) = byteP + 1 + j' := by omega
        have hmod : ((i + 1) % 2 + j') % 2 = (i + (j' + 1)) % 2 := by omega
        rw [hidx, h5 j' (by omega), hmod]

/-- If the buffer is byte-aligned and the byte cursor has reached (or
passed) the end of storage, `fill` changes nothing. -/
theorem fill_of_done (b : BitBuffer) (h0 : b.bitPointer = 0)
    (h : b.buffer.length ≤ b.bytePointer) : fill b = b := by
  have hp : padByte b = b := by
    unfold padByte
    rw [if_neg (by omega)]
  rw [fill_eq, hp]
  have hn : b.buffer.length - b.bytePointer = 0 := by omega
  rw [hn]
  rfl

/-- C8: `fill()` first byte-aligns via `padByte`, then writes the
alternating pad codewords `0xEC, 0x11, 0xEC, …` into every remaining byte
of the storage up to its current capacity, never growing the storage;
afterwards the byte cursor sits at the end of storage and the bit cursor is
0, so a second `fill()` changes nothing. -/
theorem C8_fill_spec (b : BitBuffer) :
    (fill b).buffer.length = b.buffer.length ∧
    (fill b).bitPointer = 0 ∧
    (fill b).bytePointer = max b.buffer.length (padByte b).bytePointer ∧
    (∀ j, j < (padByte b).bytePointer → (fill b).buffer.getD j 0 = b.buffer.getD j 0) ∧
    (∀ j, (padByte b).bytePointer ≤ j → j < b.buffer.length →
      (fill b).buffer.getD j 0 =
        if (j - (padByte b).bytePointer) % 2 = 0 then 0xEC else 0x11) ∧
    fill (fill b) = fill b := by
  by_cases hle : (padByte b).bytePointer ≤ b.buffer.length
  · have hlen0 : (padByte b).buffer.length = b.buffer.length := by rw [padByte_buffer]
    obtain ⟨h1, h2, h3, h4, h5⟩ := fillLoop_spec
      ((padByte b).buffer.length - (padByte b).bytePointer)
      (padByte b).buffer (padByte b).bytePointer 0 (by omega) (by omega)
    have hfl : (fill b).buffer.length = b.buffer.length := by
      rw [fill_eq]; simpa [hlen0] using h1
    have hfp : (fill b).bytePointer = b.buffer.length := by
      rw [fill_eq]
      show (fillLoop _ _ _ _).2 = _
      rw [h2]; omega
    have hbitp : (fill b).bitPointer = 0 := by
      rw [fill_eq]
      show (padByte b).bitPointer = 0
      exact padByte_bitPointer b
    refine ⟨hfl, hbitp, by rw [hfp]; omega, ?_, ?_, ?_⟩
    · intro j hj
      rw [fill_eq]
      show (fillLoop _ _ _ _).1.getD j 0 = _
      rw [h3 j hj, padByte_buffer]
    · intro j hj1 hj2
      rw [fill_eq]
      show (fillLoop _ _ _ _).1.getD j 0 = _
      have hidx : j = (padByte b).bytePointer + (j - (padByte b).bytePointer) := by omega
      rw [hidx, h5 (j - (padByte b).bytePointer) (by omega)]
      rcases Nat.mod_two_eq_zero_or_one (j - (padByte b).bytePointer) with hm | hm
      · rw [show (0 + (j - (padByte b).bytePointer)) % 2 = 0 by omega, if_pos (by omega)]
        rfl
      · rw [show (0 + (j - (padByte b).bytePointer)) % 2 = 1 by omega, if_neg (by omega)]
        rfl
    · exact fill_of_done (fill b) hbitp (by rw [hfl, hfp])
  · have hp0 : (padByte b).bitPointer = 0 := padByte_bitPointer b
    have hid : fill b = padByte b := by
      rw [fill_eq]
      have hn : (padByte b).buffer.length - (padByte b).bytePointer = 0 := by
        rw [padByte_buffer]; omega
      rw [hn]
      rfl
    have hbuf : (fill b).buffer = b.buffer := by rw [hid, padByte_buffer]
    refine ⟨by rw [hbuf], by rw [hid]; exact hp0, ?_, ?_, ?_, ?_⟩
    · rw [hid]; omega
    · intro j _; rw [hbuf]
    · intro j hj1 hj2; omega
    · rw [hid]
      exact fill_of_done (padByte b) hp0 (by rw [padByte_buffer]; omega)

/-- C8 (witness). -/
theorem C8_witness :
    (fill (mkBitBuffer (some 3))).buffer.length = (mkBitBuffer (some 3)).buffer.length ∧
    (fill (mkBitBuffer (some 3))).bitPointer = 0 ∧
    (fill (mkBitBuffer (some 3))).bytePointer =
      max (mkBitBuffer (some 3)).buffer.length (padByte (mkBitBuffer (some 3))).bytePointer ∧
    (∀ j, j < (padByte (mkBitBuffer (some 3))).bytePointer →
      (fill (mkBitBuffer (some 3))).buffer.getD j 0 = (mkBitBuffer (some 3)).buffer.getD j 0) ∧
    (∀ j, (padByte (mkBitBuffer (some 3))).bytePointer ≤ j →
      j < (mkBitBuffer (some 3)).buffer.length →
      (fill (mkBitBuffer (some 3))).buffer.getD j 0 =
        if (j - (padByte (mkBitBuffer (some 3))).bytePointer) % 2 = 0 then 0xEC else 0x11) ∧
    fill (fill (mkBitBuffer (some 3))) = fill (mkBitBuffer (some 3)) :=
  C8_fill_spec (mkBitBuffer (some 3))

/-! ## Claim C5 — appendBits bit-exactness -/

theorem ensureCapacity_bytePointer (b : BitBuffer) (n : Nat) :
    (ensureCapacity b n).bytePointer = b.bytePointer := by
  unfold ensureCapacity
  dsimp only
  split <;> rfl

theorem ensureCapacity_bitPointer (b : BitBuffer) (n : Nat) :
    (ensureCapacity b n).bitPointer = b.bitPointer := by
  unfold ensureCapacity
  dsimp only
  split <;> rfl

theorem ensureCapacity_length (b : BitBuffer) (n : Nat) :
    (ensureCapacity b n).buffer.length =
      max b.buffer.length (b.bytePointer + (n + 7) / 8) := by
  unfold ensureCapacity
  dsimp only
  split
  · rename_i h
    simp only [List.length_append, List.length_replicate]
    omega
  · rename_i h
    omega

theorem ensureCapacity_getD (b : BitBuffer) (n k : Nat) :
    (ensureCapacity b n).buffer.getD k 0 = b.buffer.getD k 0 := by
  unfold ensureCapacity
  dsimp only
  split
  · simp only [List.getD_eq_getElem?_getD]
    by_cases hk : k < b.buffer.length
    · rw [List.getElem?_append_left hk]
    · rw [List.getElem?_append_right (by omega : b.buffer.length ≤ k),
        List.getElem?_replicate,
        List.getElem?_eq_none (by omega : b.buffer.length ≤ k)]
      split <;> rfl
  · rfl

theorem ensureCapacity_listBit (b : BitBuffer) (n k : Nat) :
    listBit (ensureCapacity b n).buffer k = listBit b.buffer k := by
  unfold listBit
  rw [ensureCapacity_getD]

theorem length_setByteOr (buf : List Nat) (i v : Nat) :
    (setByteOr buf i v).length = buf.length := by
  unfold setByteOr; split <;> simp

theorem setByteOr_getD_self (buf : List Nat) (i v : Nat) (h : i < buf.length) :
    (setByteOr buf i v).getD i 0 = (buf.getD i 0 ||| v) % 256 := by
  unfold setByteOr
  rw [if_pos h]
  exact getD_set_self _ _ _ h

theorem setByteOr_getD_ne (buf : List Nat) {i j : Nat} (v : Nat) (h : i ≠ j) :
    (setByteOr buf i v).getD j 0 = buf.getD j 0 := by
  unfold setByteOr
  split
  · exact getD_set_ne _ _ h
  · rfl

theorem listBit_eq_false_of_ge (buf : List Nat) (k : Nat) (h : 8 * buf.length ≤ k) :
    listBit buf k = false := by
  unfold listBit
  have hk : buf.length ≤ k / 8 := by omega
  rw [List.getD_eq_getElem?_getD, List.getElem?_eq_none hk]
  exact Nat.zero_testBit _

/-- Writing the single bit `w < 2` at bit offset `bp` of byte `byteP` sets
exactly the stream bit at position `8 * byteP + bp` (when `w = 1`) and
leaves every other stream bit unchanged. -/
theorem listBit_setByteOr (buf : List Nat) (byteP bp w k : Nat) (hbp : bp < 8)
    (hin : byteP < buf.length) (hw : w < 2) :
    listBit (setByteOr buf byteP (w <<< (7 - bp))) k =
      (listBit buf k || (decide (k = 8 * byteP + bp) && decide (w = 1))) := by
  have hshift : (w <<< (7 - bp)).testBit (7 - k % 8) =
      (decide (k % 8 = bp) && decide (w = 1)) := by
    rw [Nat.testBit_shiftLeft]
    by_cases h1 : k % 8 = bp
    · have hle : 7 - k % 8 ≥ 7 - bp := by omega
      have hidx : 7 - k % 8 - (7 - bp) = 0 := by omega
      rw [hidx, decide_eq_true hle, Bool.true_and, decide_eq_true h1, Bool.true_and]
      rw [Nat.testBit_to_div_mod, decide_eq_decide]
      simp only [pow_zero, Nat.div_one]
      omega
    · by_cases h2 : k % 8 < bp
      · have hle : 7 - k % 8 ≥ 7 - bp := by omega
        have hidx : 7 - k % 8 - (7 - bp) = bp - k % 8 := by omega
        rw [hidx, decide_eq_true hle, Bool.true_and]
        have hlt2 : w < 2 ^ (bp - k % 8) := by
          calc w < 2 ^ 1 := by omega
          _ ≤ 2 ^ (bp - k % 8) := Nat.pow_le_pow_right (by norm_num) (by omega)
        rw [Nat.testBit_lt_two_pow hlt2, decide_eq_false h1, Bool.false_and]
      · have hk8 : k % 8 < 8 := Nat.mod_lt _ (by norm_num)
        have hgt : ¬ (7 - k % 8 ≥ 7 - bp) := by omega
        rw [decide_eq_false hgt, Bool.false_and, decide_eq_false h1, Bool.false_and]
  by_cases hkb : k / 8 = byteP
  · unfold listBit
    rw [hkb, setByteOr_getD_self _ _ _ hin]
    rw [show (256 : Nat) = 2 ^ 8 by norm_num, Nat.testBit_mod_two_pow, Nat.testBit_or]
    rw [decide_eq_true (show 7 - k % 8 < 8 by omega), Bool.true_and, hshift]
    have hdec : decide (k % 8 = bp) = decide (k = 8 * byteP + bp) := by
      rw [decide_eq_decide]
      omega
    rw [hdec]
  · unfold listBit
    rw [setByteOr_getD_ne _ _ (fun he => hkb he.symm)]
    have hdec : decide (k = 8 * byteP + bp) = false := by
      rw [decide_eq_false_iff_not]
      omega
    rw [hdec, Bool.false_and, Bool.or_false]

/-- The write loop of `appendBits`, starting at byte `byteP` / bit `bp < 8`
with all stream bits from that position on still zero and the full write in
bounds, writes exactly the `i` bits of `value` below index `i`,
most-significant first, and advances the cursor by `i` bits. -/
theorem appendLoop_spec (v : Nat) :
    ∀ (i : Nat) (buf : List Nat) (byteP bp : Nat),
      bp < 8 →
      (∀ k, 8 * byteP + bp ≤ k → listBit buf k = false) →
      8 * byteP + bp + i ≤ 8 * buf.length →
      ∃ (buf' : List Nat) (byteP' bp' : Nat),
        appendLoop v i buf byteP (bp : Int) = (buf', byteP', ((bp' : Nat) : Int)) ∧
        bp' < 8 ∧
        buf'.length = buf.length ∧
        8 * byteP' + bp' = 8 * byteP + bp + i ∧
        (∀ k, k < 8 * byteP + bp → listBit buf' k = listBit buf k) ∧
        (∀ j, j < i → listBit buf' (8 * byteP + bp + j) = v.testBit (i - 1 - j)) ∧
        (∀ k, 8 * byteP + bp + i ≤ k → listBit buf' k = false) := by
  intro i
  induction i with
  | zero =>
    intro buf byteP bp hbp hz hcap
    exact ⟨buf, byteP, bp, rfl, hbp, rfl, by omega, fun k _ => rfl,
      fun j hj => absurd hj (by omega), fun k hk => hz k (by omega)⟩
  | succ i ih =>
    intro buf byteP bp hbp hz hcap
    have hin : byteP < buf.length := by omega
    have hbit2 : v / 2 ^ i % 2 < 2 := Nat.mod_lt _ (by norm_num)
    have hsh : ((7 : Int) - (bp : Nat)).toNat % 32 = 7 - bp := by omega
    have hwrite : ∀ k, listBit (setByteOr buf byteP ((v / 2 ^ i % 2) <<< (7 - bp))) k =
        (listBit buf k || (decide (k = 8 * byteP + bp) && decide (v / 2 ^ i % 2 = 1))) :=
      fun k => listBit_setByteOr buf byteP bp _ k hbp hin hbit2
    have hw1 : decide (v / 2 ^ i % 2 = 1) = v.testBit i := (Nat.testBit_to_div_mod).symm
    have hq : listBit (setByteOr buf byteP ((v / 2 ^ i % 2) <<< (7 - bp)))
        (8 * byteP + bp) = v.testBit i := by
      rw [hwrite, hz _ (le_refl _), decide_eq_true (rfl : (8*byteP+bp : Nat) = 8*byteP+bp),
        hw1, Bool.false_or, Bool.true_and]
    have hqlt : ∀ k, k < 8 * byteP + bp →
        listBit (setByteOr buf byteP ((v / 2 ^ i % 2) <<< (7 - bp))) k = listBit buf k := by
      intro k hk
      rw [hwrite, decide_eq_false (by omega), Bool.false_and, Bool.or_false]
    have hqgt : ∀ k, 8 * byteP + bp + 1 ≤ k →
        listBit (setByteOr buf byteP ((v / 2 ^ i % 2) <<< (7 - bp))) k = false := by
      intro k hk
      rw [hwrite, hz k (by omega), decide_eq_false (by omega), Bool.false_and,
        Bool.or_false]
    have hlen1 : (setByteOr buf byteP ((v / 2 ^ i % 2) <<< (7 - bp))).length = buf.length :=
      length_setByteOr _ _ _
    by_cases h8 : bp = 7
    · have hstep : appendLoop v (i + 1) buf byteP (bp : Int) =
          appendLoop v i (setByteOr buf byteP ((v / 2 ^ i % 2) <<< (7 - bp)))
            (byteP + 1) ((0 : Nat) : Int) := by
        simp only [appendLoop]
        rw [hsh, if_pos (by rw [h8]; norm_num : ((bp : Nat) : Int) + 1 = 8)]
        norm_num
      obtain ⟨buf', byteP', bp', heq, hb8, hlen, hcur, hlow, hmid, hhigh⟩ :=
        ih (setByteOr buf byteP ((v / 2 ^ i % 2) <<< (7 - bp))) (byteP + 1) 0
          (by omega) (fun k hk => hqgt k (by omega)) (by rw [hlen1]; omega)
      refine ⟨buf', byteP', bp', hstep.trans heq, hb8, by rw [hlen, hlen1], by omega,
        ?_, ?_, ?_⟩
      · intro k hk
        rw [hlow k (by omega), hqlt k hk]
      · intro j hj
        match j with
        | 0 =>
          rw [show 8 * byteP + bp + 0 = 8 * byteP + bp by omega,
            hlow (8 * byteP + bp) (by omega), hq,
            show i + 1 - 1 - 0 = i by omega]
        | j' + 1 =>
          rw [show 8 * byteP + bp + (j' + 1) = 8 * (byteP + 1) + 0 + j' by omega,
            hmid j' (by omega), show i - 1 - j' = i + 1 - 1 - (j' + 1) by omega]
      · intro k hk
        exact hhigh k (by omega)
    · have hstep : appendLoop v (i + 1) buf byteP (bp : Int) =
          appendLoop v i (setByteOr buf byteP ((v / 2 ^ i % 2) <<< (7 - bp)))
            byteP ((bp + 1 : Nat) : Int) := by
        simp only [appendLoop]
        rw [hsh, if_neg (by omega : ¬ ((bp : Nat) : Int) + 1 = 8)]
        norm_cast
      obtain ⟨buf', byteP', bp', heq, hb8, hlen, hcur, hlow, hmid, hhigh⟩ :=
        ih (setByteOr buf byteP ((v / 2 ^ i % 2) <<< (7 - bp))) byteP (bp + 1)
          (by omega) (fun k hk => hqgt k (by omega)) (by rw [hlen1]; omega)
      refine ⟨buf', byteP', bp', hstep.trans heq, hb8, by rw [hlen, hlen1], by omega,
        ?_, ?_, ?_⟩
      · intro k hk
        rw [hlow k (by omega), hqlt k hk]
      · intro j hj
        match j with
        | 0 =>
          rw [show 8 * byteP + bp + 0 = 8 * byteP + bp by omega,
            hlow (8 * byteP + bp) (by omega), hq,
            show i + 1 - 1 - 0 = i by omega]
        | j' + 1 =>
          rw [show 8 * byteP + bp + (j' + 1) = 8 * byteP + (bp + 1) + j' by omega,
            hmid j' (by omega), show i - 1 - j' = i + 1 - 1 - (j' + 1) by omega]
      · intro k hk
        exact hhigh k (by omega)

/-- The cursor-normalisation step maps a non-negative bit cursor `N` to an
equivalent byte/bit pair with the bit part below 8. -/
theorem appendBitsPadding_spec (N byteP : Nat) :
    ∃ byP0 bp0 : Nat, appendBitsPadding ((N : Nat) : Int) byteP = (byP0, (bp0 : Int)) ∧
      bp0 < 8 ∧ 8 * byP0 + bp0 = 8 * byteP + N := by
  unfold appendBitsPadding
  by_cases h : (8 : Int) ≤ ((N : Nat) : Int)
  · rw [if_pos h]
    refine ⟨byteP + (((N : Nat) : Int) / 8).toNat, (((N : Nat) : Int) % 8).toNat, ?_, by omega, by omega⟩
    have h2 : (((((N : Nat) : Int) % 8).toNat : Nat) : Int) = ((N : Nat) : Int) % 8 := by omega
    rw [h2]
  · rw [if_neg h]
    exact ⟨byteP, N, rfl, by omega, by omega⟩

/-- `appendBits` with an explicit positive length, unfolded into its three
phases. -/
theorem appendBits_eq (b : BitBuffer) (v l : Nat) :
    appendBits b v (some (l + 1)) =
      { buffer := (appendLoop v (realBitLength v) (ensureCapacity b (l + 1)).buffer
          (appendBitsPadding (((ensureCapacity b (l + 1)).bitPointer : Int) +
            (((l + 1 : Nat) : Int) - (realBitLength v : Int)))
            (ensureCapacity b (l + 1)).bytePointer).1
          (appendBitsPadding (((ensureCapacity b (l + 1)).bitPointer : Int) +
            (((l + 1 : Nat) : Int) - (realBitLength v : Int)))
            (ensureCapacity b (l + 1)).bytePointer).2).1,
        bytePointer := (appendLoop v (realBitLength v) (ensureCapacity b (l + 1)).buffer
          (appendBitsPadding (((ensureCapacity b (l + 1)).bitPointer : Int) +
            (((l + 1 : Nat) : Int) - (realBitLength v : Int)))
            (ensureCapacity b (l + 1)).bytePointer).1
          (appendBitsPadding (((ensureCapacity b (l + 1)).bitPointer : Int) +
            (((l + 1 : Nat) : Int) - (realBitLength v : Int)))
            (ensureCapacity b (l + 1)).bytePointer).2).2.1,
        bitPointer := (appendLoop v (realBitLength v) (ensureCapacity b (l + 1)).buffer
          (appendBitsPadding (((ensureCapacity b (l + 1)).bitPointer : Int) +
            (((l + 1 : Nat) : Int) - (realBitLength v : Int)))
            (ensureCapacity b (l + 1)).bytePointer).1
          (appendBitsPadding (((ensureCapacity b (l + 1)).bitPointer : Int) +
            (((l + 1 : Nat) : Int) - (realBitLength v : Int)))
            (ensureCapacity b (l + 1)).bytePointer).2).2.2.toNat } := rfl

theorem bitLenAux_lt (fuel : Nat) : ∀ v, v ≤ fuel → v < 2 ^ bitLenAux fuel v := by
  induction fuel with
  | zero =>
    intro v hv
    have hv0 : v = 0 := by omega
    subst hv0
    simp [bitLenAux]
  | succ fuel ih =>
    intro v hv
    unfold bitLenAux
    split
    · omega
    · rename_i hne
      have h2 := ih (v / 2) (by omega)
      rw [pow_succ]
      omega

theorem lt_two_pow_realBitLength (v : Nat) : v < 2 ^ realBitLength v := by
  unfold realBitLength
  split
  · omega
  · exact bitLenAux_lt v v (le_refl v)

theorem realBitLength_pos (v : Nat) : 1 ≤ realBitLength v := by
  unfold realBitLength
  split
  · omega
  · rename_i hne
    obtain ⟨f, rfl⟩ : ∃ f, v = f + 1 := ⟨v - 1, by omega⟩
    rw [show bitLenAux (f + 1) (f + 1) = bitLenAux f ((f + 1) / 2) + 1 by
      rw [bitLenAux]; rw [if_neg (by omega)]]
    omega

/-- C5 (counterexample): with cursor at bit 3 after `appendBits(0b101, 3)`,
the call `appendBits(0b1111, 2)` should write only the lowest 2 bits of the
value at the cursor (yielding byte `0b10111000`); instead the negative
padding (`length - realLength = -2`) backs the bit cursor up to 1 and the
loop ORs all four bits over positions 1–4, corrupting the already-written
bit at position 1 and producing `0b11111000`.  The cursor still advances by
exactly `length` bits (to 5). -/
theorem C5_counterexample :
    cursorPos (appendBits (mkBitBuffer none) 5 (some 3)) = 3 ∧
    streamBit (appendBits (mkBitBuffer none) 5 (some 3)) 1 = false ∧
    streamBit (appendBits (appendBits (mkBitBuffer none) 5 (some 3)) 15 (some 2)) 1 = true ∧
    cursorPos (appendBits (appendBits (mkBitBuffer none) 5 (some 3)) 15 (some 2)) = 5 ∧
    (appendBits (appendBits (mkBitBuffer none) 5 (some 3)) 15 (some 2)).buffer = [0b11111000] ∧
    (0b11111000 : Nat) ≠ 0b10111000 := by
  decide

/-- C5 (amended): for every buffer state whose bits at and after the cursor
are still zero, every value `v` and every explicit length `L` that is at
least the bit-width of `v` (excess high-order bits are written as zeros),
and provided the write fits within the capacity as grown by
`ensureCapacity` (which, per C1, ignores the bit cursor), `appendBits`
writes exactly the lowest `L` bits of `v`, most significant first, at the
current cursor, leaves all earlier bits unchanged, advances the cursor by
exactly `L` bits, and leaves all later bits zero.  (The original claim also
asserted this for `L` smaller than the bit-width of `v`, refuted by
`C5_counterexample`.) -/
theorem C5_appendBits_writes (s : BitBuffer) (v L : Nat)
    (hzeros : ZerosFrom s)
    (hL : realBitLength v ≤ L)
    (hcap : cursorPos s + L ≤ 8 * max s.buffer.length (s.bytePointer + (L + 7) / 8)) :
    (appendBits s v (some L)).buffer.length
        = max s.buffer.length (s.bytePointer + (L + 7) / 8) ∧
    cursorPos (appendBits s v (some L)) = cursorPos s + L ∧
    (appendBits s v (some L)).bitPointer < 8 ∧
    (∀ k, k < cursorPos s → streamBit (appendBits s v (some L)) k = streamBit s k) ∧
    (∀ j, j < L → streamBit (appendBits s v (some L)) (cursorPos s + j)
        = v.testBit (L - 1 - j)) ∧
    ZerosFrom (appendBits s v (some L)) := by
  obtain ⟨l, rfl⟩ : ∃ l, L = l + 1 := ⟨L - 1, by have := realBitLength_pos v; omega⟩
  have hb1p := ensureCapacity_bytePointer s (l + 1)
  have hb1b := ensureCapacity_bitPointer s (l + 1)
  have hb1len := ensureCapacity_length s (l + 1)
  have harg : ((ensureCapacity s (l + 1)).bitPointer : Int) +
      (((l + 1 : Nat) : Int) - (realBitLength v : Int)) =
      ((s.bitPointer + ((l + 1) - realBitLength v) : Nat) : Int) := by
    rw [hb1b]; omega
  obtain ⟨byP0, bp0, hpad, hbp0, hpos⟩ :=
    appendBitsPadding_spec (s.bitPointer + ((l + 1) - realBitLength v))
      (ensureCapacity s (l + 1)).bytePointer
  have hq0 : 8 * byP0 + bp0 = cursorPos s + ((l + 1) - realBitLength v) := by
    rw [hpos, hb1p]; unfold cursorPos; omega
  obtain ⟨buf', byteP', bp', hloopeq, hb8, hlen, hcur, hlow, hmid, hhigh⟩ :=
    appendLoop_spec v (realBitLength v) (ensureCapacity s (l + 1)).buffer byP0 bp0 hbp0
      (fun k hk => by
        rw [ensureCapacity_listBit]
        exact hzeros k (by omega))
      (by rw [hb1len]; omega)
  have happ : appendBits s v (some (l + 1)) = ⟨buf', byteP', bp'⟩ := by
    rw [appendBits_eq s v l, harg, hpad]
    show BitBuffer.mk (appendLoop v (realBitLength v) _ byP0 (bp0 : Int)).1
      (appendLoop v (realBitLength v) _ byP0 (bp0 : Int)).2.1
      (appendLoop v (realBitLength v) _ byP0 (bp0 : Int)).2.2.toNat = _
    rw [hloopeq]
    simp [Int.toNat_ofNat]
  rw [happ]
  have hvlt : ∀ m, realBitLength v ≤ m → v.testBit m = false := by
    intro m hm
    refine Nat.testBit_lt_two_pow ?_
    calc v < 2 ^ realBitLength v := lt_two_pow_realBitLength v
    _ ≤ 2 ^ m := Nat.pow_le_pow_right (by norm_num) hm
  refine ⟨by rw [show (BitBuffer.mk buf' byteP' bp').buffer = buf' from rfl, hlen, hb1len],
    ?_, hb8, ?_, ?_, ?_⟩
  · show 8 * byteP' + bp' = cursorPos s + (l + 1)
    omega
  · intro k hk
    show listBit buf' k = listBit s.buffer k
    rw [hlow k (by omega), ensureCapacity_listBit]
  · intro j hj
    show listBit buf' (cursorPos s + j) = v.testBit (l + 1 - 1 - j)
    by_cases hjp : j < (l + 1) - realBitLength v
    · rw [hlow (cursorPos s + j) (by omega), ensureCapacity_listBit]
      have hz2 : listBit s.buffer (cursorPos s + j) = false := hzeros _ (by omega)
      rw [hz2, hvlt (l + 1 - 1 - j) (by omega)]
    · rw [show cursorPos s + j = 8 * byP0 + bp0 + (j - ((l + 1) - realBitLength v)) by omega]
      rw [hmid (j - ((l + 1) - realBitLength v)) (by omega)]
      rw [show realBitLength v - 1 - (j - ((l + 1) - realBitLength v))
          = l + 1 - 1 - j by omega]
  · intro k hk
    show listBit buf' k = false
    refine hhigh k ?_
    have : cursorPos (BitBuffer.mk buf' byteP' bp') = 8 * byteP' + bp' := rfl
    omega

/-- C5 (witness). -/
theorem C5_witness :
    (appendBits (mkBitBuffer none) 6 (some 3)).buffer.length
        = max (mkBitBuffer none).buffer.length
            ((mkBitBuffer none).bytePointer + (3 + 7) / 8) ∧
    cursorPos (appendBits (mkBitBuffer none) 6 (some 3)) = cursorPos (mkBitBuffer none) + 3 ∧
    (appendBits (mkBitBuffer none) 6 (some 3)).bitPointer < 8 ∧
    (∀ k, k < cursorPos (mkBitBuffer none) →
      streamBit (appendBits (mkBitBuffer none) 6 (some 3)) k = streamBit (mkBitBuffer none) k) ∧
    (∀ j, j < 3 → streamBit (appendBits (mkBitBuffer none) 6 (some 3))
        (cursorPos (mkBitBuffer none) + j) = Nat.testBit 6 (3 - 1 - j)) ∧
    ZerosFrom (appendBits (mkBitBuffer none) 6 (some 3)) := by
  have hz : ZerosFrom (mkBitBuffer none) := by
    intro k _
    show listBit (List.replicate ((none : Option Nat).getD 1) 0) k = false
    unfold listBit
    rw [List.getD_eq_getElem?_getD, List.getElem?_replicate]
    split
    · exact Nat.zero_testBit _
    · exact Nat.zero_testBit _
  exact C5_appendBits_writes (mkBitBuffer none) 6 3 hz (by decide) (by decide)

/-! ## Claim C1 — capacity growth / no lost bits -/

/-- C1 (evaluation at the failing input): on a fresh default buffer (one
byte), `appendBits(1, 4)` then `appendBits(0b11111, 5)` should produce the
9-bit stream `000111111`, but `ensureCapacity` computes the required
capacity as `bytePointer + ceil(5/8) = 1` byte, ignoring the bit cursor
(4), so the buffer is not grown: the final `1` bit is written out of bounds
and silently discarded.  The cursor nevertheless advances to byte 1 / bit 1
(9 bits), while the storage still holds only 8 bits (`0b00011111`), and the
lost ninth bit reads back as 0. -/
theorem C1_lost_bit_eval :
    (appendBits (appendBits (mkBitBuffer none) 1 (some 4)) 31 (some 5)).buffer = [31] ∧
    (appendBits (appendBits (mkBitBuffer none) 1 (some 4)) 31 (some 5)).bytePointer = 1 ∧
    (appendBits (appendBits (mkBitBuffer none) 1 (some 4)) 31 (some 5)).bitPointer = 1 ∧
    streamBit (appendBits (appendBits (mkBitBuffer none) 1 (some 4)) 31 (some 5)) 8 = false ∧
    Nat.testBit 31 0 = true := by
  decide

/-! ## Claim C3 — alphanumeric alphabet acceptance -/

/-- C3 (evaluation at the failing input): the character `'0'` is in the
45-symbol alphabet with table value 0, yet `encodeAlphanumeric("0", 1, 'M')`
throws `Non-alphanumeric character: 0`, because the source's guard
`!currValue` treats the looked-up value `0` as missing. -/
theorem C3_zero_rejected_eval :
    ALPHANUMERIC_ENCODING_TABLE '0' = some 0 ∧
    encodeAlphanumeric ['0'] 1 ECLevel.M = Except.error (QRError.invalidCharacter '0') ∧
    encodeAlphanumeric ['A', '0'] 1 ECLevel.M = Except.error (QRError.invalidCharacter '0') := by
  decide

/-! ## Claim C2 — end-to-end encoding of "AC-42" -/

/-- C2 (counterexample): `encodeAlphanumeric("AC-42", 1, 'M')` leaves the
remainder of the 16-byte buffer as zero bytes — byte 6 is `0x00`, not the
first pad codeword `0xEC` the claim requires — because `fill()` is called
by the top-level `encode`, not by `encodeAlphanumeric`. -/
theorem C2_counterexample :
    (match encodeAlphanumeric ['A', 'C', '-', '4', '2'] 1 ECLevel.M with
     | .ok b => b.buffer.getD 6 0
     | .error _ => 999) = 0 ∧ (0 : Nat) ≠ 0xEC := by
  decide

/-- C2 (amended): `encodeAlphanumeric("AC-42", 1, 'M')` deterministically
produces the 41-bit sequence `00100000001010011100111011100111001000010`
(mode `0010`, count 5 in 9 bits, packed groups `462`, `1849`, `2`)
followed by the 4-bit zero terminator and byte alignment, with the
remainder of the 16-byte version-1-level-M buffer left as zero bytes; the
pad-pattern fill happens in the top-level `encode`, whose result is
byte-for-byte `20 29 CE E7 21 00 EC 11 EC 11 EC 11 EC 11 EC 11`. -/
theorem C2_encode_AC42 :
    encodeAlphanumeric ['A', 'C', '-', '4', '2'] 1 ECLevel.M =
      Except.ok ⟨[0x20, 0x29, 0xCE, 0xE7, 0x21, 0, 0, 0, 0, 0, 0, 0, 0, 0, 0, 0], 6, 0⟩ ∧
    (List.range 45).map
        (streamBit ⟨[0x20, 0x29, 0xCE, 0xE7, 0x21, 0, 0, 0, 0, 0, 0, 0, 0, 0, 0, 0], 6, 0⟩) =
      [false, false, true, false, false, false, false, false, false, false, true, false,
       true, false, false, true, true, true, false, false, true, true, true, false,
       true, true, true, false, false, true, true, true, false, false, true, false,
       false, false, false, true, false, false, false, false, false] ∧
    encode ['A', 'C', '-', '4', '2'] EncodingMode.alphanumeric ⟨1, ECLevel.M⟩ =
      Except.ok ⟨[0x20, 0x29, 0xCE, 0xE7, 0x21, 0, 0xEC, 0x11, 0xEC, 0x11, 0xEC, 0x11,
        0xEC, 0x11, 0xEC, 0x11], 16, 0⟩ := by
  decide

end QR
